import Mathlib

/-!
Verification of the ranking / deduplication / selection core of a
gaming-news digest bot, shallowly embedded from the Python sources
(`src/processors/deduplicator.py`, `src/processors/content_ranker.py`,
`src/config.py`).

Python dicts with optional fields are embedded as a structure of
`Option` fields; Python numbers are embedded as `ℚ`; "now" is passed
explicitly to the scorer.
-/

namespace GamingNews

/-- Canonical content record: the Python dict flowing through the pipeline.
Every field is optional, mirroring `item.get(...)` access in the source.
`timestamp` is in epoch seconds (a Python `datetime` is always truthy, so
presence is what matters, which `Option` models). `content_type` and
`rank_score` are absent until `rank_content` sets them. -/
structure Item where
  title : Option String := none
  url : Option String := none
  source : Option String := none
  source_type : Option String := none
  description : Option String := none
  score : Option ℚ := none
  timestamp : Option ℚ := none
  content_type : Option String := none
  rank_score : Option ℚ := none
  deriving DecidableEq

/-- `item.get("url", "")`. -/
def urlD (it : Item) : String := it.url.getD ""

/-- `item.get("title", "")`. -/
def titleD (it : Item) : String := it.title.getD ""

/-- Bool-valued containment of `needle` as a contiguous sublist of
`haystack` (checked at every start position). -/
def subListOf (needle : List Char) : List Char → Bool
  | [] => needle.isEmpty
  | c :: rest => needle.isPrefixOf (c :: rest) || subListOf needle rest

/-- Python `needle in haystack` substring containment. -/
def pyIn (needle haystack : String) : Bool :=
  subListOf needle.toList haystack.toList

/-- Python `str.lower()` (character-wise lowercasing; ASCII suffices for
every string this development evaluates). -/
def strLower (s : String) : String := ⟨s.toList.map Char.toLower⟩

/-- Python `str.strip()`: drop leading and trailing whitespace. -/
def strTrim (s : String) : String :=
  ⟨((s.toList.dropWhile Char.isWhitespace).reverse.dropWhile
      Char.isWhitespace).reverse⟩

/-- Title normalization used by `Deduplicator.are_titles_similar`:
`title.lower().strip()`. -/
def normTitle (t : String) : String := strTrim (strLower t)

/-! ### difflib.SequenceMatcher (Python stdlib, external to the repo)

`Deduplicator.are_titles_similar` calls
`SequenceMatcher(None, t1, t2).ratio()`.  The functions below embed the
CPython `difflib` algorithm with `isjunk=None` and `autojunk=True`
(the defaults used by the source): `b2j` with the popular-element purge,
`find_longest_match` (the junk-extension loops 3 and 4 never fire since
the junk set is empty with `isjunk=None`, so they are omitted), the
recursive matching-block decomposition, and
`ratio = 2*M/T` (`1` when `T = 0`). -/

namespace Difflib

/-- Indices of `c` in `b` in increasing order, with the autojunk purge:
when `|b| ≥ 200`, elements occurring more than `|b|/100 + 1` times are
dropped from the index. -/
def b2j (b : List Char) (c : Char) : List Nat :=
  let idxs := (b.enum.filter (fun p => p.2 == c)).map (fun p => p.1)
  if b.length ≥ 200 ∧ idxs.length > b.length / 100 + 1 then [] else idxs

/-- Lookup in the `j2len` association list, defaulting to `0`. -/
def j2get (m : List (Nat × Nat)) (j : Nat) : Nat :=
  ((m.find? (fun p => p.1 == j)).map (fun p => p.2)).getD 0

/-- The `while` loop extending a match to the left
(`not isbjunk` branch; the junk set is empty). Fuel is `besti`. -/
def extendLeft (a b : List Char) (alo blo : Nat) :
    Nat → Nat × Nat × Nat → Nat × Nat × Nat
  | 0, st => st
  | fuel + 1, (bi, bj, bs) =>
    if bi > alo ∧ bj > blo ∧
        a.getD (bi - 1) (Char.ofNat 0) == b.getD (bj - 1) (Char.ofNat 0) then
      extendLeft a b alo blo fuel (bi - 1, bj - 1, bs + 1)
    else (bi, bj, bs)

/-- The `while` loop extending a match to the right
(`not isbjunk` branch; the junk set is empty). Fuel is `ahi`. -/
def extendRight (a b : List Char) (ahi bhi : Nat) :
    Nat → Nat × Nat × Nat → Nat × Nat × Nat
  | 0, st => st
  | fuel + 1, (bi, bj, bs) =>
    if bi + bs < ahi ∧ bj + bs < bhi ∧
        a.getD (bi + bs) (Char.ofNat 0) == b.getD (bj + bs) (Char.ofNat 0) then
      extendRight a b ahi bhi fuel (bi, bj, bs + 1)
    else (bi, bj, bs)

/-- `SequenceMatcher.find_longest_match(alo, ahi, blo, bhi)`:
the dynamic-programming pass over `i ∈ [alo, ahi)` with the `j2len`
table, followed by the extension loops. Returns `(besti, bestj, bestsize)`. -/
def flm (a b : List Char) (alo ahi blo bhi : Nat) : Nat × Nat × Nat :=
  let outer := (List.range' alo (ahi - alo)).foldl
    (fun (st : List (Nat × Nat) × (Nat × Nat × Nat)) i =>
      let m := st.1
      let js := (b2j b (a.getD i (Char.ofNat 0))).filter
        (fun j => decide (blo ≤ j) && decide (j < bhi))
      let inner := js.foldl
        (fun (st2 : List (Nat × Nat) × (Nat × Nat × Nat)) j =>
          let newm := st2.1
          let bi := st2.2.1
          let bj := st2.2.2.1
          let bs := st2.2.2.2
          let k := (if j = 0 then 0 else j2get m (j - 1)) + 1
          if k > bs then ((j, k) :: newm, (i + 1 - k, j + 1 - k, k))
          else ((j, k) :: newm, (bi, bj, bs)))
        ([], st.2)
      inner)
    ([], (alo, blo, 0))
  extendRight a b ahi bhi ahi
    (extendLeft a b alo blo outer.2.1 outer.2)

/-- Total size of the matching blocks: the recursive decomposition of
`get_matching_blocks` (only the sum of block sizes matters for `ratio`).
Fuel dominates the length of the `a`-interval. -/
def matchSum (a b : List Char) : Nat → Nat × Nat × Nat × Nat → Nat
  | 0, _ => 0
  | fuel + 1, (alo, ahi, blo, bhi) =>
    let r := flm a b alo ahi blo bhi
    let i := r.1
    let j := r.2.1
    let k := r.2.2
    if k = 0 then 0
    else
      k + (if alo < i ∧ blo < j then matchSum a b fuel (alo, i, blo, j) else 0)
        + (if i + k < ahi ∧ j + k < bhi then
            matchSum a b fuel (i + k, ahi, j + k, bhi) else 0)

end Difflib

/-- `SequenceMatcher(None, s1, s2).ratio()`: `2*M/T`, and `1.0` when both
strings are empty. -/
def difflibRatio (s1 s2 : String) : ℚ :=
  let a := s1.toList
  let b := s2.toList
  let total := a.length + b.length
  if total = 0 then 1
  else 2 * (Difflib.matchSum a b (a.length + 1) (0, a.length, 0, b.length) : ℚ) / total

/-! ### Deduplicator (`src/processors/deduplicator.py`)

The deduplicator is parameterized by the similarity-ratio function
(`difflib` is external stdlib code) and the similarity threshold
(constructor argument, default `0.85`). -/

/-- `Deduplicator.are_titles_similar`: normalize both titles, report a
duplicate on exact match, otherwise when `ratio ≥ threshold`. -/
def are_titles_similar (ratio : String → String → ℚ) (thr : ℚ)
    (title1 title2 : String) : Bool :=
  let t1 := normTitle title1
  let t2 := normTitle title2
  if t1 = t2 then true
  else decide (ratio t1 t2 ≥ thr)

/-- The loop state of `Deduplicator.deduplicate`: the kept items
(`unique_items`), the set of seen non-empty URLs (`seen_urls`, a Python
set modelled as a list used only through membership), and the kept raw
titles (`seen_titles`). -/
structure DState where
  unique : List Item
  seenU : List String
  seenT : List String
  deriving DecidableEq

/-- One iteration of the `for item in items` loop of
`Deduplicator.deduplicate`: drop on a previously seen non-empty URL,
then drop on any similar previously kept title, otherwise keep and
record URL (when non-empty) and title. -/
def dedupStep (ratio : String → String → ℚ) (thr : ℚ)
    (s : DState) (it : Item) : DState :=
  let url := urlD it
  let title := titleD it
  if url ≠ "" ∧ url ∈ s.seenU then s
  else if s.seenT.any (fun st => are_titles_similar ratio thr title st) then s
  else
    { unique := s.unique ++ [it]
      seenU := if url ≠ "" then url :: s.seenU else s.seenU
      seenT := s.seenT ++ [title] }

/-- `Deduplicator.deduplicate`: fold the loop body over the input,
starting from empty state, and return `unique_items`. -/
def deduplicate (ratio : String → String → ℚ) (thr : ℚ)
    (items : List Item) : List Item :=
  (items.foldl (dedupStep ratio thr) ⟨[], [], []⟩).unique

/-- `GoodFrom s K`: every item of `K` is kept by the deduplication loop
when run from state `s` (each step appends the item to `unique`). -/
def GoodFrom (r : String → String → ℚ) (t : ℚ) : DState → List Item → Prop
  | _, [] => True
  | s, it :: rest =>
      (dedupStep r t s it).unique = s.unique ++ [it] ∧
      GoodFrom r t (dedupStep r t s it) rest

/-! ### Configuration (`src/config.py`) -/

/-- `PRIORITY_WEIGHTS` from `config.py`. -/
def PRIORITY_WEIGHTS : List (String × ℚ) :=
  [("official", 100), ("major_news", 75), ("community", 50), ("discussion", 25)]

/-- `PREFERRED_CONTENT_AGE_HOURS` from `config.py`. -/
def PREFERRED_CONTENT_AGE_HOURS : ℚ := 24

/-- `FALLBACK_CONTENT_AGE_HOURS` from `config.py`. -/
def FALLBACK_CONTENT_AGE_HOURS : ℚ := 72

/-- `ITEMS_PER_GAME` from `config.py`. -/
def ITEMS_PER_GAME : Nat := 5

/-- Modelled from the spec: the constant `SOURCE_DISTRIBUTION` is imported
by `content_ranker.py` from `config` but is not defined anywhere in the
sources.  Spec §4.4 describes "an explicit per-kind target-range whose
midpoint is used" over the three source kinds, processed in the order
news, forum (reddit), video (youtube).  We model a `(min, max)` range per
kind; theorems that do not depend on the concrete ranges quantify over an
arbitrary table instead. -/
def SOURCE_DISTRIBUTION : List (String × Nat × Nat) :=
  [("news", 1, 2), ("reddit", 1, 2), ("youtube", 1, 2)]

/-! ### Content classifier and scorer (`src/processors/content_ranker.py`) -/

/-- The fixed announcement-keyword list of
`ContentRanker.determine_content_type`. -/
def official_keywords : List String :=
  ["patch", "update", "announcement", "release", "launch",
   "developer", "official", "confirmed"]

/-- The major news outlets recognized by `determine_content_type`. -/
def major_outlets : List String :=
  ["ign", "kotaku", "pc gamer", "polygon", "eurogamer", "vg247"]

/-- The trusted YouTube channels recognized by `determine_content_type`. -/
def trusted_channels : List String :=
  ["ign", "gamespot", "eurogamer", "pc gamer", "polygon"]

/-- `ContentRanker.determine_content_type`: first-match-wins decision
ladder over official sources, announcement keywords, then source-kind
specific heuristics. -/
def determine_content_type (it : Item) (official_sources : List String) : String :=
  let title := strLower (titleD it)
  let source := strLower (it.source.getD "")
  let source_type := it.source_type.getD ""
  let description := strLower (it.description.getD "")
  let content := title ++ " " ++ source ++ " " ++ description
  if official_sources.any (fun o => pyIn (strLower o) content) then "official"
  else if official_keywords.any (fun kw => pyIn kw title) then "official"
  else if source_type = "news" ∧ major_outlets.any (fun o => pyIn o source) then
    "major_news"
  else if source_type = "youtube" then
    if trusted_channels.any (fun c => pyIn c source) then "major_news"
    else "community"
  else if source_type = "reddit" then
    if it.score.getD 0 > 500 then "community" else "discussion"
  else "discussion"

/-- The engagement-boost component of `ContentRanker.calculate_score`
(inline in the source): `min(score/10000, 20)` for youtube,
`min(score/100, 20)` for reddit, `0` otherwise.  Note the source compares
`item.get("source_type")` (default `None`) against the kind names. -/
def engagement_boost (it : Item) : ℚ :=
  let engagement := it.score.getD 0
  if it.source_type = some "youtube" then min (engagement / 10000) 20
  else if it.source_type = some "reddit" then min (engagement / 100) 20
  else 0

/-- The recency-boost component of `ContentRanker.calculate_score`
(inline in the source): `0` when the item has no timestamp (the
`if item.get("timestamp")` guard fails), else `25` within the preferred
age, `10` within the fallback age, `0` otherwise. -/
def recency_boost (now : ℚ) (it : Item) : ℚ :=
  match it.timestamp with
  | none => 0
  | some ts =>
    let hours_old := (now - ts) / 3600
    if hours_old ≤ PREFERRED_CONTENT_AGE_HOURS then 25
    else if hours_old ≤ FALLBACK_CONTENT_AGE_HOURS then 10
    else 0

/-- `ContentRanker.calculate_score`: priority weight of the content type
(`self.weights.get(content_type, 0)`) plus engagement and recency boosts. -/
def calculate_score (now : ℚ) (it : Item) (content_type : String) : ℚ :=
  (PRIORITY_WEIGHTS.lookup content_type).getD 0
    + engagement_boost it + recency_boost now it

/-- `x["rank_score"]` as a sort key (always present after
`rank_content`; defaults to `0` to stay total). -/
def rankKey (it : Item) : ℚ := it.rank_score.getD 0

/-- Descending comparison used by the two
`sort(key=lambda x: x["rank_score"], reverse=True)` calls.  Python's sort
with `reverse=True` is stable; a stable sort is uniquely determined by
the key order, so the (stable) insertion sort below computes exactly the
Python result. -/
def descR (x y : Item) : Prop := rankKey y ≤ rankKey x

instance : DecidableRel descR :=
  fun x y => inferInstanceAs (Decidable (rankKey y ≤ rankKey x))

instance : IsTotal Item descR := ⟨fun a b => le_total (rankKey b) (rankKey a)⟩

instance : IsTrans Item descR := ⟨fun _ _ _ h1 h2 => le_trans h2 h1⟩

/-- `ContentRanker.rank_content`: classify and score every item, store
the results in the record, and stably sort by descending `rank_score`. -/
def rank_content (now : ℚ) (items : List Item)
    (official_sources : List String) : List Item :=
  List.insertionSort descR (items.map (fun it =>
    let ct := determine_content_type it official_sources
    { it with content_type := some ct
              rank_score := some (calculate_score now it ct) }))

/-! ### Selector (`ContentRanker.select_top_items`)

Python tracks picked items by `item.get("url", id(item))`: the `url`
field when the key is present (even when its value is `""`), object
identity otherwise.  Distinct dict objects in the ranked list are
modelled by tagging each ranked item with its position. -/

/-- A ranked item tagged with its position in the ranked list
(standing in for Python object identity). -/
abbrev TItem := Nat × Item

/-- `item.get("url", id(item))`: the url when the key is present,
object identity (the position tag) otherwise. -/
def itemId (x : TItem) : String ⊕ Nat :=
  match x.2.url with
  | some u => Sum.inl u
  | none => Sum.inr x.1

/-- Selection state: `selected` (with tags) and `remaining_slots`.
The Python `selected_ids` set always equals the ids of `selected`
(both are updated together), so it is not carried separately. -/
structure SelState where
  sel : List TItem
  rem : Nat
  deriving DecidableEq

/-- The shared `if item_id not in selected_ids` body of both selection
passes: append the item and decrement `remaining_slots`, or skip. -/
def addSel (s : SelState) (x : TItem) : SelState :=
  if ∃ y ∈ s.sel, itemId y = itemId x then s
  else ⟨s.sel ++ [x], s.rem - 1⟩

/-- Tag the ranked list with positions. -/
def tagOf (l : List Item) : List TItem := l.enum

/-- The `by_source` bucket for one source type (grouping preserves the
ranked order, as the Python append loop does). -/
def bySourceT (tagged : List TItem) (st : String) : List TItem :=
  tagged.filter (fun x => x.2.source_type.getD "" == st)

/-- The per-kind target: the midpoint `(min + max) // 2` of the
configured range, `0` for a kind missing from the table
(`target_distribution.get(source_type, 0)`). -/
def targetOf (dist : List (String × Nat × Nat)) (st : String) : Nat :=
  ((dist.lookup st).map (fun p => (p.1 + p.2) / 2)).getD 0

/-- One bucket of the first pass: take the top
`min(target, remaining_slots, len(available))` items of the bucket and
offer each to `addSel`. -/
def bucketStep (dist : List (String × Nat × Nat)) (tagged : List TItem)
    (s : SelState) (st : String) : SelState :=
  let available := bySourceT tagged st
  let actual := min (targetOf dist st) (min s.rem available.length)
  (available.take actual).foldl addSel s

/-- The first pass over the buckets in the fixed priority order
`["news", "reddit", "youtube"]`. -/
def firstPass (dist : List (String × Nat × Nat)) (tagged : List TItem)
    (count : Nat) : SelState :=
  ["news", "reddit", "youtube"].foldl (bucketStep dist tagged) ⟨[], count⟩

/-- The second pass: walk the full ranked pool adding unselected items
until `remaining_slots` reaches `0` (the Python loop breaks after the
decrement; checking before each iteration is equivalent, including the
`if remaining_slots > 0` outer guard). -/
def fillTagged : List TItem → SelState → SelState
  | [], s => s
  | x :: xs, s => if s.rem = 0 then s else fillTagged xs (addSel s x)

/-- `ContentRanker.select_top_items`: rank, return `[]` on an empty pool,
run the quota pass then the fill pass, re-sort the selection by
descending `rank_score`, and trim to `count`. -/
def select_top_items (dist : List (String × Nat × Nat)) (now : ℚ)
    (items : List Item) (official_sources : List String) (count : Nat) :
    List Item :=
  let ranked := rank_content now items official_sources
  if ranked.isEmpty then []
  else
    let tagged := tagOf ranked
    let final := fillTagged tagged (firstPass dist tagged count)
    (List.insertionSort descR (final.sel.map (fun x => x.2))).take count

/-- The number of distinct selector identities
(`item.get("url", id(item))`) in a ranked pool. -/
def distinctIdCount (l : List Item) : Nat :=
  ((tagOf l).map itemId).dedup.length

end GamingNews

/-! ## Claim theorems -/

namespace GamingNews

/-! ### C3: scoring with missing fields -/

unseal Rat.mul Rat.inv Rat.add Rat.sub Rat.ofScientific in
/-- C3 counterexample. The claim says a record with no timestamp is scored
as if its age were zero and thus receives the maximum recency boost (25).
The code's `if item.get("timestamp")` guard gives it recency boost `0`
instead: a fully-empty record scores only the bare `discussion` weight 25,
while a record whose age is exactly zero scores 50. -/
theorem C3_missing_timestamp_cex :
    recency_boost 0 ({} : Item) = 0 ∧
    calculate_score 0 ({} : Item) "discussion" = 25 ∧
    recency_boost 0 { timestamp := some 0 } = 25 ∧
    calculate_score 0 ({ timestamp := some 0 } : Item) "discussion" = 50 ∧
    ¬ recency_boost 0 ({} : Item) = 25 :=
  ⟨rfl, by decide, by decide, by decide, by decide⟩

/-- C3 amended: scoring a record with missing optional fields never raises
(the embedded scorer is total) and uses safe defaults — empty string for
missing text, zero for missing engagement — but a record with no
timestamp receives recency boost `0` (treated as stale), not the maximum:
its score is exactly the priority weight of its content type. -/
theorem C3_missing_fields_defaults (now : ℚ) (ct : String) :
    titleD ({} : Item) = "" ∧ urlD ({} : Item) = "" ∧
    engagement_boost ({} : Item) = 0 ∧
    recency_boost now ({} : Item) = 0 ∧
    calculate_score now ({} : Item) ct = (PRIORITY_WEIGHTS.lookup ct).getD 0 := by
  refine ⟨rfl, rfl, rfl, rfl, ?_⟩
  show (PRIORITY_WEIGHTS.lookup ct).getD 0 + engagement_boost {} + recency_boost now {} = _
  rw [show engagement_boost {} = 0 from rfl, show recency_boost now {} = 0 from rfl,
    add_zero, add_zero]

/-! ### C7: announcement keywords force `official` -/

/-- C7: whenever the lowercased title contains one of the fixed
announcement keywords, classification returns `official` regardless of
the other fields and of the official-sources list (the earlier
official-sources branch also returns `official`, so the result is
`official` either way). -/
theorem C7_keyword_official (it : Item) (os : List String)
    (h : official_keywords.any
      (fun kw => pyIn kw (strLower (titleD it))) = true) :
    determine_content_type it os = "official" := by
  rw [determine_content_type]
  by_cases h1 : os.any
      (fun o => pyIn (strLower o)
        (strLower (titleD it) ++ " " ++ strLower (it.source.getD "")
          ++ " " ++ strLower (it.description.getD ""))) = true
  · simp [h1]
  · simp [h1, h]

/-- C7 witness: a reddit item whose title contains "patch" classifies as
`official` even with a non-matching official-sources list and a high
engagement score. -/
theorem C7_keyword_official_witness :
    official_keywords.any
      (fun kw => pyIn kw (strLower (titleD
        { title := some "Big Patch incoming",
          source_type := some "reddit", score := some 9000 }))) = true ∧
    determine_content_type
      { title := some "Big Patch incoming",
        source_type := some "reddit", score := some 9000 } ["GameCo"]
      = "official" := by
  have h : official_keywords.any
      (fun kw => pyIn kw (strLower (titleD
        { title := some "Big Patch incoming",
          source_type := some "reddit", score := some 9000 }))) = true := by decide
  exact ⟨h, C7_keyword_official _ ["GameCo"] h⟩

/-! ### C8: scorer bounds -/

/-- C8: with a non-negative engagement score, the engagement boost lies in
`[0, 20]` for a forum (reddit) item and for a video (youtube) item, and is
`0` for a news item; the recency boost is always one of `0`, `10`, `25`. -/
theorem C8_scorer_bounds (it : Item) (now : ℚ) (h : 0 ≤ it.score.getD 0) :
    (it.source_type = some "reddit" →
      0 ≤ engagement_boost it ∧ engagement_boost it ≤ 20) ∧
    (it.source_type = some "youtube" →
      0 ≤ engagement_boost it ∧ engagement_boost it ≤ 20) ∧
    (it.source_type = some "news" → engagement_boost it = 0) ∧
    (recency_boost now it = 0 ∨ recency_boost now it = 10 ∨
      recency_boost now it = 25) := by
  refine ⟨?_, ?_, ?_, ?_⟩
  · intro hst
    have hEB : engagement_boost it = min (it.score.getD 0 / 100) 20 := by
      simp [engagement_boost, hst]
    rw [hEB]
    exact ⟨le_min (div_nonneg h (by norm_num)) (by norm_num), min_le_right _ _⟩
  · intro hst
    have hEB : engagement_boost it = min (it.score.getD 0 / 10000) 20 := by
      simp [engagement_boost, hst]
    rw [hEB]
    exact ⟨le_min (div_nonneg h (by norm_num)) (by norm_num), min_le_right _ _⟩
  · intro hst
    simp [engagement_boost, hst]
  · rw [recency_boost]
    rcases it.timestamp with _ | ts
    · exact Or.inl rfl
    · dsimp only
      split
      · exact Or.inr (Or.inr rfl)
      · split
        · exact Or.inr (Or.inl rfl)
        · exact Or.inl rfl

/-- C8 witness: a reddit item with engagement 300 at `now = 0`. -/
theorem C8_scorer_bounds_witness :
    (0 : ℚ) ≤ (({ source_type := some "reddit", score := some 300 } : Item).score).getD 0 ∧
    (({ source_type := some "reddit", score := some 300 } : Item).source_type = some "reddit" →
      0 ≤ engagement_boost { source_type := some "reddit", score := some 300 } ∧
      engagement_boost { source_type := some "reddit", score := some 300 } ≤ 20) := by
  have h : (0 : ℚ) ≤ (({ source_type := some "reddit", score := some 300 } : Item).score).getD 0 := by
    decide
  exact ⟨h, (C8_scorer_bounds { source_type := some "reddit", score := some 300 } 0 h).1⟩

end GamingNews

namespace GamingNews

/-! ### Deduplicator infrastructure -/

/-- Case analysis of one deduplication step: URL-drop, title-drop, or keep. -/
theorem dedupStep_split (r : String → String → ℚ) (t : ℚ) (s : DState) (it : Item) :
    (urlD it ≠ "" ∧ urlD it ∈ s.seenU ∧ dedupStep r t s it = s) ∨
    (¬(urlD it ≠ "" ∧ urlD it ∈ s.seenU) ∧
      s.seenT.any (fun st => are_titles_similar r t (titleD it) st) = true ∧
      dedupStep r t s it = s) ∨
    (¬(urlD it ≠ "" ∧ urlD it ∈ s.seenU) ∧
      s.seenT.any (fun st => are_titles_similar r t (titleD it) st) = false ∧
      dedupStep r t s it =
        { unique := s.unique ++ [it]
          seenU := if urlD it ≠ "" then urlD it :: s.seenU else s.seenU
          seenT := s.seenT ++ [titleD it] }) := by
  rw [dedupStep]
  by_cases h1 : urlD it ≠ "" ∧ urlD it ∈ s.seenU
  · exact Or.inl ⟨h1.1, h1.2, by rw [if_pos h1]⟩
  · by_cases h2 : s.seenT.any (fun st => are_titles_similar r t (titleD it) st) = true
    · exact Or.inr (Or.inl ⟨h1, h2, by rw [if_neg h1, if_pos h2]⟩)
    · exact Or.inr (Or.inr ⟨h1, by simpa using h2, by rw [if_neg h1, if_neg h2]⟩)

/-- The deduplication loop appends to `unique` a sublist of its input all
of whose members are kept (in the `GoodFrom` sense) from the start state. -/
theorem dedup_foldl_decomp (r : String → String → ℚ) (t : ℚ) :
    ∀ (L : List Item) (s : DState),
    ∃ K, (L.foldl (dedupStep r t) s).unique = s.unique ++ K ∧
      K.Sublist L ∧ GoodFrom r t s K := by
  intro L
  induction L with
  | nil => exact fun s => ⟨[], by simp, List.nil_sublist _, trivial⟩
  | cons it rest ih =>
    intro s
    rcases dedupStep_split r t s it with ⟨_, _, hs⟩ | ⟨_, _, hs⟩ | ⟨_, _, hs⟩
    · obtain ⟨K, hK, hsub, hgood⟩ := ih (dedupStep r t s it)
      rw [hs] at hK hgood
      exact ⟨K, by rw [List.foldl_cons, hs]; exact hK, hsub.cons _, hgood⟩
    · obtain ⟨K, hK, hsub, hgood⟩ := ih (dedupStep r t s it)
      rw [hs] at hK hgood
      exact ⟨K, by rw [List.foldl_cons, hs]; exact hK, hsub.cons _, hgood⟩
    · obtain ⟨K, hK, hsub, hgood⟩ := ih (dedupStep r t s it)
      refine ⟨it :: K, ?_, hsub.cons₂ _, ?_, ?_⟩
      · rw [List.foldl_cons, hK, hs]
        simp
      · rw [hs]
      · exact hgood

/-- Running the loop over a `GoodFrom` list keeps every item. -/
theorem dedup_foldl_of_goodFrom (r : String → String → ℚ) (t : ℚ) :
    ∀ (K : List Item) (s : DState), GoodFrom r t s K →
    (K.foldl (dedupStep r t) s).unique = s.unique ++ K := by
  intro K
  induction K with
  | nil => intro s _; simp
  | cons it rest ih =>
    intro s h
    rw [List.foldl_cons, ih (dedupStep r t s it) h.2, h.1]
    simp

/-! ### C4: deduplication is idempotent -/

/-- C4: for every similarity-ratio function, threshold and input sequence,
`deduplicate (deduplicate X) = deduplicate X`: the loop records URLs and
titles only for kept items, so its own output passes every check again. -/
theorem C4_dedup_idempotent (r : String → String → ℚ) (t : ℚ)
    (items : List Item) :
    deduplicate r t (deduplicate r t items) = deduplicate r t items := by
  obtain ⟨K, hK, _, hgood⟩ := dedup_foldl_decomp r t items ⟨[], [], []⟩
  have h1 : deduplicate r t items = K := by
    rw [deduplicate, hK]; simp
  rw [h1, deduplicate, dedup_foldl_of_goodFrom r t K ⟨[], [], []⟩ hgood]
  simp

/-! ### C9: deduplication is order-preserving -/

/-- C9: the output of `deduplicate` is a subsequence of its input, so
surviving items keep their relative input order. -/
theorem C9_dedup_sublist (r : String → String → ℚ) (t : ℚ)
    (items : List Item) : (deduplicate r t items).Sublist items := by
  obtain ⟨K, hK, hsub, _⟩ := dedup_foldl_decomp r t items ⟨[], [], []⟩
  rw [deduplicate, hK]
  simpa using hsub

end GamingNews

namespace GamingNews

/-! ### C2: URL rule -/

/-- Loop invariant for the URL logic: `seen_urls` holds exactly the
non-empty URLs of kept items, and those are pairwise distinct. -/
theorem dedup_url_inv (r : String → String → ℚ) (t : ℚ) :
    ∀ (L : List Item) (s : DState),
    (∀ u : String, u ≠ "" → (u ∈ s.seenU ↔ u ∈ s.unique.map urlD)) →
    ((s.unique.map urlD).filter (fun u => u ≠ "")).Nodup →
    (∀ u : String, u ≠ "" →
      (u ∈ (L.foldl (dedupStep r t) s).seenU ↔
       u ∈ (L.foldl (dedupStep r t) s).unique.map urlD)) ∧
    (((L.foldl (dedupStep r t) s).unique.map urlD).filter
      (fun u => u ≠ "")).Nodup := by
  intro L
  induction L with
  | nil => exact fun s h1 h2 => ⟨h1, h2⟩
  | cons it rest ih =>
    intro s h1 h2
    rw [List.foldl_cons]
    rcases dedupStep_split r t s it with ⟨_, _, hs⟩ | ⟨_, _, hs⟩ | ⟨hurl, _, hs⟩
    · rw [hs]; exact ih s h1 h2
    · rw [hs]; exact ih s h1 h2
    · rw [hs]
      refine ih _ ?_ ?_
      · intro u hu
        by_cases hun : urlD it ≠ ""
        · show u ∈ (if urlD it ≠ "" then urlD it :: s.seenU else s.seenU) ↔ _
          rw [if_pos hun]
          simp only [List.mem_cons, List.map_append, List.map_cons, List.map_nil,
            List.mem_append, List.mem_singleton]
          rw [h1 u hu]
          tauto
        · show u ∈ (if urlD it ≠ "" then urlD it :: s.seenU else s.seenU) ↔ _
          rw [if_neg hun]
          push_neg at hun
          simp only [List.map_append, List.map_cons, List.map_nil,
            List.mem_append, List.mem_singleton]
          rw [h1 u hu]
          constructor
          · exact fun h => Or.inl h
          · rintro (h | h)
            · exact h
            · exact (hu (h.trans hun)).elim
      · show (((s.unique ++ [it]).map urlD).filter (fun u => u ≠ "")).Nodup
        rw [List.map_append, List.filter_append]
        by_cases hun : urlD it ≠ ""
        · have hnotin : urlD it ∉ s.unique.map urlD := by
            intro hmem
            exact hurl ⟨hun, (h1 _ hun).mpr hmem⟩
          simp only [List.map_cons, List.map_nil, List.filter_cons]
          rw [if_pos (by simpa using hun)]
          rw [List.nodup_append]
          refine ⟨h2, List.nodup_singleton _, ?_⟩
          intro a ha hb
          have hb' : a = urlD it := by simpa using hb
          subst hb'
          exact hnotin (List.mem_of_mem_filter ha)
        · push_neg at hun
          simp only [List.map_cons, List.map_nil, List.filter_cons]
          rw [if_neg (by simpa using hun)]
          simpa using h2

/-- Counting helper: occurrences of `u` among the values of `urlD` equal
the number of items whose `urlD` is `u`. -/
theorem length_filter_urlD_eq_count (u : String) :
    ∀ l : List Item,
    (l.filter (fun it => urlD it = u)).length = (l.map urlD).count u := by
  intro l
  induction l with
  | nil => rfl
  | cons x xs ih =>
    by_cases h : urlD x = u
    · simp [List.filter_cons, List.map_cons, List.count_cons, h, ih]
    · simp [List.filter_cons, List.map_cons, List.count_cons, h, ih,
        Ne.symm h]

/-- Counting helper: a list whose non-empty entries are `Nodup` holds any
fixed non-empty value at most once. -/
theorem count_le_one_of_nodup_ne_empty (u : String) (hu : u ≠ "") :
    ∀ m : List String, (m.filter (fun v => v ≠ "")).Nodup →
    m.count u ≤ 1 := by
  intro m
  induction m with
  | nil => intro _; exact Nat.zero_le _
  | cons x xs ih =>
    intro h
    by_cases hx : x = u
    · subst hx
      rw [List.filter_cons, if_pos (by simpa using hu)] at h
      have hnotin : x ∉ xs.filter (fun v => v ≠ "") := (List.nodup_cons.mp h).1
      have hz : xs.count x = 0 := by
        rw [List.count_eq_zero]
        intro hmem
        exact hnotin (List.mem_filter.mpr ⟨hmem, by simpa using hu⟩)
      simp [List.count_cons, hz]
    · rw [List.filter_cons] at h
      rcases Decidable.em (x ≠ "") with hne | hne
      · rw [if_pos (by simpa using hne)] at h
        have := ih (List.nodup_cons.mp h).2
        simpa [List.count_cons, Ne.symm hx, hx] using this
      · rw [if_neg (by simpa using hne)] at h
        have := ih h
        simpa [List.count_cons, Ne.symm hx, hx] using this

/-- C2 (amended): for every ratio function, threshold and input, at most
one item with any given non-empty URL survives deduplication.  (The
survivor need not be the first in input order: when the first holder of a
URL is itself dropped for title similarity its URL is never recorded, and
a later holder can survive — see the counterexample.) -/
theorem C2_url_at_most_one (r : String → String → ℚ) (t : ℚ)
    (items : List Item) (u : String) (hu : u ≠ "") :
    ((deduplicate r t items).filter (fun it => urlD it = u)).length ≤ 1 := by
  have h := (dedup_url_inv r t items ⟨[], [], []⟩
    (by intro v hv; simp) (by simp)).2
  rw [deduplicate]
  rw [length_filter_urlD_eq_count]
  exact count_le_one_of_nodup_ne_empty u hu _ h

unseal Rat.mul Rat.inv Rat.add Rat.sub Rat.ofScientific in
/-- C2 counterexample to the original claim (with the production ratio
`difflib` and threshold `0.85`): the first holder of url `"u"` is dropped
as an exact title duplicate of an earlier item, so its URL is never
recorded and the *second* holder of `"u"` survives — the survivor is not
the first in input order. -/
theorem C2_first_survivor_cex :
    deduplicate difflibRatio (17/20)
      [{ title := some "hello world", url := some "z" },
       { title := some "hello world", url := some "u" },
       { title := some "totally different thing", url := some "u" }] =
      [{ title := some "hello world", url := some "z" },
       { title := some "totally different thing", url := some "u" }] ∧
    urlD { title := some "hello world", url := some "u" } =
      urlD { title := some "totally different thing", url := some "u" } ∧
    ({ title := some "hello world", url := some "u" } : Item) ∉
      deduplicate difflibRatio (17/20)
        [{ title := some "hello world", url := some "z" },
         { title := some "hello world", url := some "u" },
         { title := some "totally different thing", url := some "u" }] := by
  refine ⟨by decide, rfl, by decide⟩

unseal Rat.mul Rat.inv Rat.add Rat.sub Rat.ofScientific in
/-- C2 witness: the amended theorem applied to a concrete pool with a
duplicated non-empty URL. -/
theorem C2_url_at_most_one_witness :
    ("u" : String) ≠ "" ∧
    ((deduplicate difflibRatio (17/20)
      [{ title := some "alpha news", url := some "u" },
       { title := some "completely unrelated", url := some "u" }]).filter
        (fun it => urlD it = "u")).length ≤ 1 :=
  ⟨by decide, C2_url_at_most_one difflibRatio (17/20) _ "u" (by decide)⟩

end GamingNews

namespace GamingNews

/-! ### C10: items whose titles normalize to the empty string -/

/-- An empty first sequence has no matching blocks, so the ratio against
any non-empty second sequence is `0`. -/
theorem difflibRatio_empty_left (t : String) (ht : t ≠ "") :
    difflibRatio "" t = 0 := by
  have hlen : t.toList.length ≠ 0 := by
    intro h
    exact ht (by
      have : t.toList = [] := List.length_eq_zero.mp h
      cases t with
      | mk d => simpa [String.toList] using congrArg String.mk this)
  have hms : Difflib.matchSum "".toList t.toList ("".toList.length + 1)
      (0, "".toList.length, 0, t.toList.length) = 0 := rfl
  rw [difflibRatio]
  simp only [hms]
  rw [if_neg (by simpa using hlen)]
  push_cast
  ring

/-- Every URL in the loop's seen set comes from the start state or from
an input item. -/
theorem dedup_seenU_sub (r : String → String → ℚ) (t : ℚ) :
    ∀ (L : List Item) (s : DState), ∀ u ∈ (L.foldl (dedupStep r t) s).seenU,
    u ∈ s.seenU ∨ u ∈ L.map urlD := by
  intro L
  induction L with
  | nil => exact fun s u hu => Or.inl hu
  | cons it rest ih =>
    intro s u hu
    rw [List.foldl_cons] at hu
    rcases dedupStep_split r t s it with ⟨_, _, hs⟩ | ⟨_, _, hs⟩ | ⟨_, _, hs⟩ <;>
      rw [hs] at hu
    · rcases ih s u hu with h | h
      · exact Or.inl h
      · exact Or.inr (by simpa using Or.inr h)
    · rcases ih s u hu with h | h
      · exact Or.inl h
      · exact Or.inr (by simpa using Or.inr h)
    · rcases ih _ u hu with h | h
      · by_cases hne : urlD it ≠ ""
        · rw [if_pos hne] at h
          rcases List.mem_cons.mp h with h | h
          · exact Or.inr (by simpa using Or.inl h)
          · exact Or.inl h
        · rw [if_neg hne] at h
          exact Or.inl h
      · exact Or.inr (by simpa using Or.inr h)

/-- Every title in the loop's seen list comes from the start state or from
an input item. -/
theorem dedup_seenT_sub (r : String → String → ℚ) (t : ℚ) :
    ∀ (L : List Item) (s : DState), ∀ u ∈ (L.foldl (dedupStep r t) s).seenT,
    u ∈ s.seenT ∨ u ∈ L.map titleD := by
  intro L
  induction L with
  | nil => exact fun s u hu => Or.inl hu
  | cons it rest ih =>
    intro s u hu
    rw [List.foldl_cons] at hu
    rcases dedupStep_split r t s it with ⟨_, _, hs⟩ | ⟨_, _, hs⟩ | ⟨_, _, hs⟩ <;>
      rw [hs] at hu
    · rcases ih s u hu with h | h
      · exact Or.inl h
      · exact Or.inr (by simpa using Or.inr h)
    · rcases ih s u hu with h | h
      · exact Or.inl h
      · exact Or.inr (by simpa using Or.inr h)
    · rcases ih _ u hu with h | h
      · rcases List.mem_append.mp h with h | h
        · exact Or.inl h
        · exact Or.inr (by simpa using Or.inl (by simpa using h))
      · exact Or.inr (by simpa using Or.inr h)

/-- From the keep equation on `unique`, recover the full keep case of
`dedupStep` (the drop cases leave `unique` unchanged). -/
theorem dedupStep_kept_of_append (r : String → String → ℚ) (t : ℚ)
    (s : DState) (it : Item)
    (happ : (dedupStep r t s it).unique = s.unique ++ [it]) :
    ¬(urlD it ≠ "" ∧ urlD it ∈ s.seenU) ∧
    s.seenT.any (fun st => are_titles_similar r t (titleD it) st) = false ∧
    dedupStep r t s it =
      { unique := s.unique ++ [it]
        seenU := if urlD it ≠ "" then urlD it :: s.seenU else s.seenU
        seenT := s.seenT ++ [titleD it] } := by
  rcases dedupStep_split r t s it with ⟨_, _, hs⟩ | ⟨_, _, hs⟩ | ⟨h1, h2, hs⟩
  · rw [hs] at happ
    exact absurd (congrArg List.length happ) (by simp)
  · rw [hs] at happ
    exact absurd (congrArg List.length happ) (by simp)
  · exact ⟨h1, h2, hs⟩

/-- Once some kept title normalizes to the empty string, no further item
whose title also normalizes to empty is ever kept (the exact-match check
catches it). -/
theorem goodFrom_no_empty (r : String → String → ℚ) (t : ℚ) :
    ∀ (K : List Item) (s : DState), GoodFrom r t s K →
    (∃ tt ∈ s.seenT, normTitle tt = "") →
    ∀ x ∈ K, normTitle (titleD x) ≠ "" := by
  intro K
  induction K with
  | nil => intro s _ _ x hx; cases hx
  | cons it rest ih =>
    intro s hgood hex x hx
    obtain ⟨tt, htt, httn⟩ := hex
    obtain ⟨hnu, hany, hs⟩ := dedupStep_kept_of_append r t s it hgood.1
    have hitne : normTitle (titleD it) ≠ "" := by
      intro hit
      have hsim : are_titles_similar r t (titleD it) tt = true := by
        rw [are_titles_similar]
        simp only [hit, httn]
        simp
      exact List.any_eq_false.mp hany tt htt hsim
    rcases List.mem_cons.mp hx with hx1 | hx1
    · subst hx1; exact hitne
    · refine ih (dedupStep r t s it) hgood.2 ?_ x hx1
      refine ⟨tt, ?_, httn⟩
      rw [hs]
      simpa using Or.inl htt

/-- Among the items kept from any state whose seen titles have no empty
normalization yet, at most one has an empty-normalized title. -/
theorem goodFrom_empty_le_one (r : String → String → ℚ) (t : ℚ) :
    ∀ (K : List Item) (s : DState), GoodFrom r t s K →
    (K.filter (fun x => normTitle (titleD x) = "")).length ≤ 1 := by
  intro K
  induction K with
  | nil => intro s _; exact Nat.zero_le _
  | cons it rest ih =>
    intro s hgood
    obtain ⟨_, _, hs⟩ := dedupStep_kept_of_append r t s it hgood.1
    by_cases hn : normTitle (titleD it) = ""
    · have hrest : ∀ x ∈ rest, normTitle (titleD x) ≠ "" := by
        refine goodFrom_no_empty r t rest (dedupStep r t s it) hgood.2 ?_
        refine ⟨titleD it, ?_, hn⟩
        rw [hs]
        simp
      have hfil : rest.filter (fun x => normTitle (titleD x) = "") = [] := by
        rw [List.filter_eq_nil_iff]
        intro x hx
        simpa using hrest x hx
      simp [List.filter_cons, hn, hfil]
    · have := ih (dedupStep r t s it) hgood.2
      simpa [List.filter_cons, hn] using this

/-- C10 (amended): (1) for any ratio and threshold, at most one item whose
title normalizes to the empty string (including items missing the title)
survives deduplication, even when the URLs are non-empty and distinct;
(2) with the production ratio and threshold, the survivor is the first
empty-titled item whose URL is not already seen — the original claim's
"the first such item is kept" fails when that first item's URL duplicates
an earlier URL (see the counterexample). -/
theorem C10_empty_title_collapse :
    (∀ (r : String → String → ℚ) (t : ℚ) (items : List Item),
      ((deduplicate r t items).filter
        (fun x => normTitle (titleD x) = "")).length ≤ 1) ∧
    (∀ (pre : List Item) (e : Item) (post : List Item),
      (∀ x ∈ pre, normTitle (titleD x) ≠ "") →
      normTitle (titleD e) = "" →
      (urlD e = "" ∨ urlD e ∉ pre.map urlD) →
      (deduplicate difflibRatio (17/20) (pre ++ e :: post)).filter
        (fun x => normTitle (titleD x) = "") = [e]) := by
  constructor
  · intro r t items
    obtain ⟨K, hK, _, hgood⟩ := dedup_foldl_decomp r t items ⟨[], [], []⟩
    rw [deduplicate, hK]
    simpa using goodFrom_empty_le_one r t K ⟨[], [], []⟩ hgood
  · intro pre e post hpre he hurl
    rw [deduplicate, List.foldl_append, List.foldl_cons]
    set s1 := pre.foldl (dedupStep difflibRatio (17/20)) ⟨[], [], []⟩ with hs1
    obtain ⟨K1, hK1, hK1sub, _⟩ :=
      dedup_foldl_decomp difflibRatio (17/20) pre ⟨[], [], []⟩
    have hK1pre : ∀ x ∈ K1, x ∈ pre := fun x hx => hK1sub.subset hx
    -- the step on `e` keeps it
    have hseenUsub : ∀ u ∈ s1.seenU, u ∈ pre.map urlD :=
      fun u hu => by
        rcases dedup_seenU_sub difflibRatio (17/20) pre ⟨[], [], []⟩ u hu with h | h
        · cases h
        · exact h
    have hseenTsub : ∀ tt ∈ s1.seenT, tt ∈ pre.map titleD :=
      fun tt htt => by
        rcases dedup_seenT_sub difflibRatio (17/20) pre ⟨[], [], []⟩ tt htt with h | h
        · cases h
        · exact h
    have hnu : ¬(urlD e ≠ "" ∧ urlD e ∈ s1.seenU) := by
      rintro ⟨hne, hmem⟩
      rcases hurl with h | h
      · exact hne h
      · exact h (hseenUsub _ hmem)
    have hany : s1.seenT.any
        (fun st => are_titles_similar difflibRatio (17/20) (titleD e) st)
          = false := by
      rw [List.any_eq_false]
      intro tt htt
      obtain ⟨x, hxpre, hxtt⟩ := List.mem_map.mp (hseenTsub tt htt)
      have httn : normTitle tt ≠ "" := hxtt ▸ hpre x hxpre
      rw [are_titles_similar]
      simp only [he]
      rw [if_neg (fun hh => httn hh.symm)]
      rw [difflibRatio_empty_left (normTitle tt) httn]
      simp
    have hstep : dedupStep difflibRatio (17/20) s1 e =
        { unique := s1.unique ++ [e]
          seenU := if urlD e ≠ "" then urlD e :: s1.seenU else s1.seenU
          seenT := s1.seenT ++ [titleD e] } := by
      rw [dedupStep, if_neg hnu, if_neg (by simp [hany])]
    rw [hstep]
    obtain ⟨K3, hK3, _, hgood3⟩ :=
      dedup_foldl_decomp difflibRatio (17/20) post
        { unique := s1.unique ++ [e]
          seenU := if urlD e ≠ "" then urlD e :: s1.seenU else s1.seenU
          seenT := s1.seenT ++ [titleD e] }
    rw [hK3]
    have hK3ne : ∀ x ∈ K3, normTitle (titleD x) ≠ "" := by
      refine goodFrom_no_empty difflibRatio (17/20) K3 _ hgood3 ⟨titleD e, ?_, he⟩
      simp
    have hK1ne : ∀ x ∈ K1, normTitle (titleD x) ≠ "" :=
      fun x hx => hpre x (hK1pre x hx)
    have hK1fil : K1.filter (fun x => normTitle (titleD x) = "") = [] := by
      rw [List.filter_eq_nil_iff]; intro x hx; simpa using hK1ne x hx
    have hK3fil : K3.filter (fun x => normTitle (titleD x) = "") = [] := by
      rw [List.filter_eq_nil_iff]; intro x hx; simpa using hK3ne x hx
    have huniq : s1.unique = K1 := by rw [hK1]; simp
    rw [huniq]
    simp [List.filter_append, hK1fil, hK3fil, List.filter_cons, he]

end GamingNews

namespace GamingNews

unseal Rat.mul Rat.inv Rat.add Rat.sub Rat.ofScientific in
/-- C10 counterexample to the original claim: the *first* empty-titled
item is dropped for its duplicated URL (not kept), and a *later*
empty-titled item with a fresh URL survives instead. -/
theorem C10_first_empty_dropped_cex :
    deduplicate difflibRatio (17/20)
      [{ title := some "x", url := some "a" },
       { url := some "a" },
       { url := some "b" }] =
      [{ title := some "x", url := some "a" }, { url := some "b" }] ∧
    normTitle (titleD ({ url := some "a" } : Item)) = "" ∧
    normTitle (titleD ({ url := some "b" } : Item)) = "" ∧
    ({ url := some "a" } : Item) ∉
      deduplicate difflibRatio (17/20)
        [{ title := some "x", url := some "a" },
         { url := some "a" },
         { url := some "b" }] ∧
    ({ url := some "b" } : Item) ∈
      deduplicate difflibRatio (17/20)
        [{ title := some "x", url := some "a" },
         { url := some "a" },
         { url := some "b" }] := by
  refine ⟨by decide, rfl, rfl, by decide, by decide⟩

unseal Rat.mul Rat.inv Rat.add Rat.sub Rat.ofScientific in
/-- C10 witness: the amended theorem's second part at a concrete input —
one titled item, then a title-less item with a fresh URL, then two more
empty-titled items with distinct non-empty URLs; exactly the first
title-less item survives among them. -/
theorem C10_empty_title_collapse_witness :
    (∀ x ∈ [({ title := some "solid headline", url := some "a" } : Item)],
      normTitle (titleD x) ≠ "") ∧
    normTitle (titleD ({ url := some "b" } : Item)) = "" ∧
    (urlD ({ url := some "b" } : Item) = "" ∨
      urlD ({ url := some "b" } : Item) ∉
        [({ title := some "solid headline", url := some "a" } : Item)].map urlD) ∧
    (deduplicate difflibRatio (17/20)
      ([{ title := some "solid headline", url := some "a" }] ++
        { url := some "b" } ::
          [{ url := some "c" }, { title := some "   ", url := some "d" }])).filter
      (fun x => normTitle (titleD x) = "") = [{ url := some "b" }] := by
  refine ⟨by decide, rfl, by decide, ?_⟩
  exact C10_empty_title_collapse.2
    [{ title := some "solid headline", url := some "a" }]
    { url := some "b" }
    [{ url := some "c" }, { title := some "   ", url := some "d" }]
    (by decide) rfl (by decide)

/-! ### C6: threshold boundary -/

/-- C6: on a two-item pool with no URL collision the first item is always
kept, and the second is dropped exactly by the title rule: a similarity
ratio equal to the threshold drops it, a ratio strictly below the
threshold (the titles then necessarily differ after normalization, since
equal strings have ratio 1) keeps both, and equal normalized titles drop
it without consulting the ratio (exact match counts as similarity 1). -/
theorem C6_threshold_boundary (ratio : String → String → ℚ) (thr : ℚ)
    (a b : Item)
    (hurl : ¬(urlD b ≠ "" ∧ urlD a ≠ "" ∧ urlD b = urlD a)) :
    (ratio (normTitle (titleD b)) (normTitle (titleD a)) = thr →
      deduplicate ratio thr [a, b] = [a]) ∧
    (ratio (normTitle (titleD b)) (normTitle (titleD a)) < thr →
      normTitle (titleD b) ≠ normTitle (titleD a) →
      deduplicate ratio thr [a, b] = [a, b]) ∧
    (normTitle (titleD b) = normTitle (titleD a) →
      deduplicate ratio thr [a, b] = [a]) := by
  have hstepa : dedupStep ratio thr ⟨[], [], []⟩ a =
      { unique := [a]
        seenU := if urlD a ≠ "" then [urlD a] else []
        seenT := [titleD a] } := by
    rw [dedupStep]
    rw [if_neg (by simp)]
    rw [if_neg (by simp)]
    simp
  have hmem : urlD b ∈ (if urlD a ≠ "" then [urlD a] else ([] : List String)) ↔
      (urlD a ≠ "" ∧ urlD b = urlD a) := by
    by_cases h : urlD a ≠ ""
    · rw [if_pos h]; simp [h]
    · rw [if_neg h]; simp [h]
  have hnu : ¬(urlD b ≠ "" ∧ urlD b ∈
      (if urlD a ≠ "" then [urlD a] else ([] : List String))) := by
    rintro ⟨h1, h2⟩
    exact hurl ⟨h1, (hmem.mp h2).1, (hmem.mp h2).2⟩
  refine ⟨?_, ?_, ?_⟩
  · intro hr
    show (dedupStep ratio thr (dedupStep ratio thr ⟨[], [], []⟩ a) b).unique = [a]
    rw [hstepa, dedupStep]
    rw [if_neg hnu]
    rw [if_pos ?_]
    · by_cases he : normTitle (titleD b) = normTitle (titleD a)
      · simp [are_titles_similar, he]
      · simp only [List.any_cons, List.any_nil, Bool.or_false]
        rw [are_titles_similar]
        simp only [if_neg he]
        simp [hr]
  · intro hr hne
    show (dedupStep ratio thr (dedupStep ratio thr ⟨[], [], []⟩ a) b).unique
      = [a, b]
    rw [hstepa, dedupStep]
    rw [if_neg hnu]
    rw [if_neg ?_]
    · simp
    · simp only [List.any_cons, List.any_nil, Bool.or_false]
      rw [are_titles_similar]
      simp only [if_neg hne]
      simp only [decide_eq_true_eq]
      intro hge
      exact absurd hr (not_lt.mpr hge)
  · intro he
    show (dedupStep ratio thr (dedupStep ratio thr ⟨[], [], []⟩ a) b).unique = [a]
    rw [hstepa, dedupStep]
    rw [if_neg hnu]
    rw [if_pos (by simp [are_titles_similar, he])]

unseal Rat.mul Rat.inv Rat.add Rat.sub Rat.ofScientific in
/-- C6 witness: with threshold `1/2`, the pair of titles `"ax"` / `"ab"`
has `difflib` ratio exactly `1/2` and the later item is dropped. -/
theorem C6_threshold_boundary_witness :
    difflibRatio (normTitle (titleD ({ title := some "ab" } : Item)))
      (normTitle (titleD ({ title := some "ax" } : Item))) = 1/2 ∧
    deduplicate difflibRatio (1/2)
      [{ title := some "ax" }, { title := some "ab" }] =
      [{ title := some "ax" }] := by
  have h : difflibRatio (normTitle (titleD ({ title := some "ab" } : Item)))
      (normTitle (titleD ({ title := some "ax" } : Item))) = 1/2 := by decide
  exact ⟨h,
    (C6_threshold_boundary difflibRatio (1/2)
      { title := some "ax" } { title := some "ab" } (by decide)).1 h⟩

end GamingNews

namespace GamingNews

/-! ### Selector infrastructure -/

/-- `addSel` leaves the selection unchanged (seen id) or appends the item. -/
theorem addSel_cases (s : SelState) (x : TItem) :
    ((∃ y ∈ s.sel, itemId y = itemId x) ∧ addSel s x = s) ∨
    (¬(∃ y ∈ s.sel, itemId y = itemId x) ∧
      addSel s x = ⟨s.sel ++ [x], s.rem - 1⟩) := by
  rw [addSel]
  by_cases h : ∃ y ∈ s.sel, itemId y = itemId x
  · exact Or.inl ⟨h, if_pos h⟩
  · exact Or.inr ⟨h, if_neg h⟩

/-- A fold of `addSel` appends (some of) the offered items. -/
theorem foldl_addSel_decomp :
    ∀ (xs : List TItem) (s : SelState),
    ∃ d, (xs.foldl addSel s).sel = s.sel ++ d ∧ ∀ y ∈ d, y ∈ xs := by
  intro xs
  induction xs with
  | nil => exact fun s => ⟨[], by simp, by simp⟩
  | cons x xs ih =>
    intro s
    rw [List.foldl_cons]
    rcases addSel_cases s x with ⟨_, hs⟩ | ⟨_, hs⟩
    · rw [hs]
      obtain ⟨d, hd, hdm⟩ := ih s
      exact ⟨d, hd, fun y hy => List.mem_cons_of_mem _ (hdm y hy)⟩
    · rw [hs]
      obtain ⟨d, hd, hdm⟩ := ih ⟨s.sel ++ [x], s.rem - 1⟩
      refine ⟨x :: d, ?_, ?_⟩
      · rw [hd]
        simp
      · intro y hy
        rcases List.mem_cons.mp hy with hy1 | hy1
        · exact hy1 ▸ List.mem_cons_self x xs
        · exact List.mem_cons_of_mem _ (hdm y hy1)

/-- A fold of `addSel` preserves distinctness of the selected ids. -/
theorem foldl_addSel_nodup :
    ∀ (xs : List TItem) (s : SelState),
    (s.sel.map itemId).Nodup → ((xs.foldl addSel s).sel.map itemId).Nodup := by
  intro xs
  induction xs with
  | nil => exact fun s h => h
  | cons x xs ih =>
    intro s h
    rw [List.foldl_cons]
    rcases addSel_cases s x with ⟨_, hs⟩ | ⟨hnot, hs⟩
    · rw [hs]; exact ih s h
    · rw [hs]
      refine ih _ ?_
      show ((s.sel ++ [x]).map itemId).Nodup
      rw [List.map_append, List.nodup_append]
      refine ⟨h, by simp, ?_⟩
      intro a ha hb
      have hb' : a = itemId x := by simpa using hb
      subst hb'
      obtain ⟨y, hy, hyid⟩ := List.mem_map.mp ha
      exact hnot ⟨y, hy, hyid⟩

/-- Slot accounting for a fold of `addSel` over at most `s.rem` offers. -/
theorem foldl_addSel_balance (count : Nat) :
    ∀ (xs : List TItem) (s : SelState), xs.length ≤ s.rem →
    s.sel.length + s.rem = count →
    ((xs.foldl addSel s).sel.length + (xs.foldl addSel s).rem = count) ∧
    (xs.foldl addSel s).rem ≤ s.rem := by
  intro xs
  induction xs with
  | nil => exact fun s _ h => ⟨h, le_refl _⟩
  | cons x xs ih =>
    intro s hlen hbal
    rw [List.foldl_cons]
    rcases addSel_cases s x with ⟨_, hs⟩ | ⟨_, hs⟩
    · rw [hs]
      exact ih s (le_trans (by simp) hlen) hbal
    · rw [hs]
      have hrem : 1 ≤ s.rem := le_trans (by simp) hlen
      have h1 : ((⟨s.sel ++ [x], s.rem - 1⟩ : SelState)).sel.length +
          ((⟨s.sel ++ [x], s.rem - 1⟩ : SelState)).rem = count := by
        show (s.sel ++ [x]).length + (s.rem - 1) = count
        rw [List.length_append, List.length_singleton]
        omega
      have h2 : xs.length ≤ ((⟨s.sel ++ [x], s.rem - 1⟩ : SelState)).rem := by
        show xs.length ≤ s.rem - 1
        rw [List.length_cons] at hlen
        omega
      obtain ⟨ha, hb⟩ := ih _ h2 h1
      exact ⟨ha, le_trans hb (by show s.rem - 1 ≤ s.rem; omega)⟩

/-- The fill pass appends (some of) the walked items. -/
theorem fillTagged_decomp :
    ∀ (xs : List TItem) (s : SelState),
    ∃ d, (fillTagged xs s).sel = s.sel ++ d ∧ ∀ y ∈ d, y ∈ xs := by
  intro xs
  induction xs with
  | nil => exact fun s => ⟨[], by simp [fillTagged], by simp⟩
  | cons x xs ih =>
    intro s
    rw [fillTagged]
    by_cases h : s.rem = 0
    · rw [if_pos h]; exact ⟨[], by simp, by simp⟩
    · rw [if_neg h]
      rcases addSel_cases s x with ⟨_, hs⟩ | ⟨_, hs⟩
      · rw [hs]
        obtain ⟨d, hd, hdm⟩ := ih s
        exact ⟨d, hd, fun y hy => List.mem_cons_of_mem _ (hdm y hy)⟩
      · rw [hs]
        obtain ⟨d, hd, hdm⟩ := ih ⟨s.sel ++ [x], s.rem - 1⟩
        refine ⟨x :: d, ?_, ?_⟩
        · rw [hd]
          simp
        · intro y hy
          rcases List.mem_cons.mp hy with hy1 | hy1
          · exact hy1 ▸ List.mem_cons_self x xs
          · exact List.mem_cons_of_mem _ (hdm y hy1)

/-- The fill pass preserves distinctness of the selected ids. -/
theorem fillTagged_nodup :
    ∀ (xs : List TItem) (s : SelState),
    (s.sel.map itemId).Nodup → ((fillTagged xs s).sel.map itemId).Nodup := by
  intro xs
  induction xs with
  | nil => exact fun s h => h
  | cons x xs ih =>
    intro s h
    rw [fillTagged]
    by_cases hr : s.rem = 0
    · rw [if_pos hr]; exact h
    · rw [if_neg hr]
      rcases addSel_cases s x with ⟨_, hs⟩ | ⟨hnot, hs⟩
      · rw [hs]; exact ih s h
      · rw [hs]
        refine ih _ ?_
        show ((s.sel ++ [x]).map itemId).Nodup
        rw [List.map_append, List.nodup_append]
        refine ⟨h, by simp, ?_⟩
        intro a ha hb
        have hb' : a = itemId x := by simpa using hb
        subst hb'
        obtain ⟨y, hy, hyid⟩ := List.mem_map.mp ha
        exact hnot ⟨y, hy, hyid⟩

/-- Slot accounting for the fill pass. -/
theorem fillTagged_balance (count : Nat) :
    ∀ (xs : List TItem) (s : SelState),
    s.sel.length + s.rem = count →
    (fillTagged xs s).sel.length + (fillTagged xs s).rem = count := by
  intro xs
  induction xs with
  | nil => exact fun s h => h
  | cons x xs ih =>
    intro s h
    rw [fillTagged]
    by_cases hr : s.rem = 0
    · rw [if_pos hr]; exact h
    · rw [if_neg hr]
      rcases addSel_cases s x with ⟨_, hs⟩ | ⟨_, hs⟩
      · rw [hs]; exact ih s h
      · rw [hs]
        refine ih _ ?_
        show (s.sel ++ [x]).length + (s.rem - 1) = count
        rw [List.length_append, List.length_singleton]
        omega

/-- The fill pass either exhausts the slots or covers every walked id. -/
theorem fillTagged_complete :
    ∀ (xs : List TItem) (s : SelState),
    (fillTagged xs s).rem = 0 ∨
    ∀ x ∈ xs, ∃ y ∈ (fillTagged xs s).sel, itemId y = itemId x := by
  intro xs
  induction xs with
  | nil => exact fun s => Or.inr (fun x hx => absurd hx (List.not_mem_nil x))
  | cons x xs ih =>
    intro s
    rw [fillTagged]
    by_cases h : s.rem = 0
    · rw [if_pos h]; exact Or.inl h
    · rw [if_neg h]
      rcases ih (addSel s x) with hc | hc
      · exact Or.inl hc
      · right
        intro z hz
        rcases List.mem_cons.mp hz with hz1 | hz1
        · rw [hz1]
          obtain ⟨d, hd, _⟩ := fillTagged_decomp xs (addSel s x)
          rcases addSel_cases s x with ⟨⟨y, hy, hyid⟩, hs⟩ | ⟨_, hs⟩
          · refine ⟨y, ?_, hyid⟩
            rw [hd, hs]
            exact List.mem_append_left _ hy
          · refine ⟨x, ?_, rfl⟩
            rw [hd, hs]
            exact List.mem_append_left _ (by simp)
        · exact hc z hz1

/-- Items of a source bucket belong to the tagged pool. -/
theorem bySourceT_subset (tagged : List TItem) (st : String) :
    ∀ y ∈ bySourceT tagged st, y ∈ tagged :=
  fun _ hy => (List.mem_filter.mp hy).1

/-- Combined facts about one bucket of the quota pass: slot accounting,
monotone slots, growth by bucket items only, and id distinctness. -/
theorem bucketStep_facts (dist : List (String × Nat × Nat))
    (tagged : List TItem) (count : Nat) (st : String) (s : SelState)
    (h1 : s.sel.length + s.rem = count) :
    ((bucketStep dist tagged s st).sel.length +
      (bucketStep dist tagged s st).rem = count) ∧
    (bucketStep dist tagged s st).rem ≤ s.rem ∧
    (∃ d, (bucketStep dist tagged s st).sel = s.sel ++ d ∧
      ∀ y ∈ d, y ∈ bySourceT tagged st) ∧
    ((s.sel.map itemId).Nodup →
      ((bucketStep dist tagged s st).sel.map itemId).Nodup) := by
  rw [bucketStep]
  have hxs : ((bySourceT tagged st).take
      (min (targetOf dist st)
        (min s.rem (bySourceT tagged st).length))).length ≤ s.rem := by
    rw [List.length_take]
    omega
  refine ⟨(foldl_addSel_balance count _ s hxs h1).1,
    (foldl_addSel_balance count _ s hxs h1).2, ?_,
    fun hnd => foldl_addSel_nodup _ s hnd⟩
  obtain ⟨d, hd, hdm⟩ := foldl_addSel_decomp
    ((bySourceT tagged st).take
      (min (targetOf dist st) (min s.rem (bySourceT tagged st).length))) s
  exact ⟨d, hd, fun y hy => List.mem_of_mem_take (hdm y hy)⟩

/-- Combined facts about the whole quota pass. -/
theorem firstPass_facts (dist : List (String × Nat × Nat))
    (tagged : List TItem) (count : Nat) :
    ((firstPass dist tagged count).sel.length +
      (firstPass dist tagged count).rem = count) ∧
    ((firstPass dist tagged count).sel.map itemId).Nodup ∧
    (∀ y ∈ (firstPass dist tagged count).sel, y ∈ tagged) := by
  rw [firstPass]
  simp only [List.foldl_cons, List.foldl_nil]
  have h0 : (⟨[], count⟩ : SelState).sel.length + (⟨[], count⟩ : SelState).rem
      = count := by simp
  obtain ⟨b1, _, ⟨d1, hd1, hm1⟩, hn1⟩ :=
    bucketStep_facts dist tagged count "news" ⟨[], count⟩ h0
  obtain ⟨b2, _, ⟨d2, hd2, hm2⟩, hn2⟩ :=
    bucketStep_facts dist tagged count "reddit" _ b1
  obtain ⟨b3, _, ⟨d3, hd3, hm3⟩, hn3⟩ :=
    bucketStep_facts dist tagged count "youtube" _ b2
  refine ⟨b3, hn3 (hn2 (hn1 (by simp))), ?_⟩
  intro y hy
  rw [hd3] at hy
  rcases List.mem_append.mp hy with hy | hy
  · rw [hd2] at hy
    rcases List.mem_append.mp hy with hy | hy
    · rw [hd1] at hy
      rcases List.mem_append.mp hy with hy | hy
      · cases hy
      · exact bySourceT_subset tagged "news" y (hm1 y hy)
    · exact bySourceT_subset tagged "reddit" y (hm2 y hy)
  · exact bySourceT_subset tagged "youtube" y (hm3 y hy)

end GamingNews

namespace GamingNews

/-! ### C1: selector count contract and sortedness -/

/-- Unfolding of `select_top_items` into its passes. -/
theorem select_top_items_eq (dist : List (String × Nat × Nat)) (now : ℚ)
    (items : List Item) (os : List String) (count : Nat) :
    select_top_items dist now items os count =
      if rank_content now items os = [] then []
      else (List.insertionSort descR
        ((fillTagged (tagOf (rank_content now items os))
          (firstPass dist (tagOf (rank_content now items os)) count)).sel.map
          (fun x => x.2))).take count := by
  rw [select_top_items]
  by_cases h : rank_content now items os = []
  · rw [if_pos h]
    rw [if_pos (by rw [h]; rfl)]
  · rw [if_neg h]
    rw [if_neg (by simpa [List.isEmpty_iff] using h)]

/-- C1 (amended): the selection has length exactly
`min count (number of distinct item identities in the ranked pool)` —
which equals `min count (pool size)` whenever all identities are
distinct — and is sorted descending by `rank_score`.  The original
claim's `min k (pool size)` fails when two pool items share an identity
(same non-empty url value, including two items whose url field is `""`);
see the counterexample. -/
theorem C1_select_count_sorted (dist : List (String × Nat × Nat)) (now : ℚ)
    (items : List Item) (os : List String) (count : Nat) :
    (select_top_items dist now items os count).length =
      min count (distinctIdCount (rank_content now items os)) ∧
    (select_top_items dist now items os count).Pairwise descR := by
  rw [select_top_items_eq]
  by_cases h : rank_content now items os = []
  · rw [if_pos h]
    constructor
    · rw [h]
      simp [distinctIdCount, tagOf]
    · exact List.Pairwise.nil
  · rw [if_neg h]
    obtain ⟨hbal1, hnd1, hsub1⟩ :=
      firstPass_facts dist (tagOf (rank_content now items os)) count
    have hbal : (fillTagged (tagOf (rank_content now items os))
        (firstPass dist (tagOf (rank_content now items os)) count)).sel.length +
        (fillTagged (tagOf (rank_content now items os))
          (firstPass dist (tagOf (rank_content now items os)) count)).rem
        = count :=
      fillTagged_balance count _ _ hbal1
    have hnd : ((fillTagged (tagOf (rank_content now items os))
        (firstPass dist (tagOf (rank_content now items os)) count)).sel.map
          itemId).Nodup :=
      fillTagged_nodup _ _ hnd1
    have hsub : ∀ y ∈ (fillTagged (tagOf (rank_content now items os))
        (firstPass dist (tagOf (rank_content now items os)) count)).sel,
        y ∈ tagOf (rank_content now items os) := by
      obtain ⟨d, hd, hdm⟩ := fillTagged_decomp
        (tagOf (rank_content now items os))
        (firstPass dist (tagOf (rank_content now items os)) count)
      intro y hy
      rw [hd] at hy
      rcases List.mem_append.mp hy with hy | hy
      · exact hsub1 y hy
      · exact hdm y hy
    have hids_sub : ∀ i ∈ (fillTagged (tagOf (rank_content now items os))
        (firstPass dist (tagOf (rank_content now items os)) count)).sel.map
          itemId,
        i ∈ (tagOf (rank_content now items os)).map itemId := by
      intro i hi
      obtain ⟨y, hy, hyi⟩ := List.mem_map.mp hi
      exact List.mem_map.mpr ⟨y, hsub y hy, hyi⟩
    have hkey : (fillTagged (tagOf (rank_content now items os))
        (firstPass dist (tagOf (rank_content now items os)) count)).sel.length
        = min count (distinctIdCount (rank_content now items os)) := by
      rcases fillTagged_complete (tagOf (rank_content now items os))
        (firstPass dist (tagOf (rank_content now items os)) count)
        with hr | hcov
      · have hle : count ≤ distinctIdCount (rank_content now items os) := by
          have hcard := calc
            ((fillTagged (tagOf (rank_content now items os))
              (firstPass dist (tagOf (rank_content now items os)) count)).sel.map
                itemId).length
              = ((fillTagged (tagOf (rank_content now items os))
                (firstPass dist (tagOf (rank_content now items os)) count)).sel.map
                  itemId).toFinset.card := (List.toFinset_card_of_nodup hnd).symm
            _ ≤ ((tagOf (rank_content now items os)).map itemId).toFinset.card :=
              Finset.card_le_card (fun i hi =>
                List.mem_toFinset.mpr (hids_sub i (List.mem_toFinset.mp hi)))
            _ = ((tagOf (rank_content now items os)).map itemId).dedup.length :=
              List.card_toFinset _
          rw [List.length_map] at hcard
          rw [distinctIdCount]
          omega
        rw [distinctIdCount] at hle ⊢
        omega
      · have hcov2 : ∀ i ∈ (tagOf (rank_content now items os)).map itemId,
            i ∈ (fillTagged (tagOf (rank_content now items os))
              (firstPass dist (tagOf (rank_content now items os)) count)).sel.map
                itemId := by
          intro i hi
          obtain ⟨x, hx, hxi⟩ := List.mem_map.mp hi
          obtain ⟨y, hy, hyi⟩ := hcov x hx
          exact List.mem_map.mpr ⟨y, hy, by rw [hyi, hxi]⟩
        have hfe : ((fillTagged (tagOf (rank_content now items os))
            (firstPass dist (tagOf (rank_content now items os)) count)).sel.map
              itemId).toFinset
            = ((tagOf (rank_content now items os)).map itemId).toFinset := by
          apply Finset.Subset.antisymm
          · intro i hi
            exact List.mem_toFinset.mpr (hids_sub i (List.mem_toFinset.mp hi))
          · intro i hi
            exact List.mem_toFinset.mpr (hcov2 i (List.mem_toFinset.mp hi))
        have hlen := calc
          ((fillTagged (tagOf (rank_content now items os))
            (firstPass dist (tagOf (rank_content now items os)) count)).sel.map
              itemId).length
            = ((fillTagged (tagOf (rank_content now items os))
              (firstPass dist (tagOf (rank_content now items os)) count)).sel.map
                itemId).toFinset.card := (List.toFinset_card_of_nodup hnd).symm
          _ = ((tagOf (rank_content now items os)).map itemId).toFinset.card :=
            by rw [hfe]
          _ = ((tagOf (rank_content now items os)).map itemId).dedup.length :=
            List.card_toFinset _
        rw [List.length_map] at hlen
        rw [distinctIdCount]
        omega
    constructor
    · rw [List.length_take, List.length_insertionSort, List.length_map, hkey]
      omega
    · exact List.Pairwise.sublist (List.take_sublist _ _)
        (List.sorted_insertionSort descR _)

end GamingNews

namespace GamingNews

unseal Rat.mul Rat.inv Rat.add Rat.sub Rat.ofScientific in
/-- C1 counterexample to the original claim: both pool items carry the url
value `""` (key present), so Python's `item.get("url", id(item))` gives
both the same identity `""` and the selector returns one item for
`k = 2`, not `min 2 2 = 2`. -/
theorem C1_select_count_cex :
    (select_top_items SOURCE_DISTRIBUTION 0
      [{ title := some "aaa", url := some "", source_type := some "news" },
       { title := some "zzz", url := some "", source_type := some "news" }]
      [] 2).length = 1 ∧
    (select_top_items SOURCE_DISTRIBUTION 0
      [{ title := some "aaa", url := some "", source_type := some "news" },
       { title := some "zzz", url := some "", source_type := some "news" }]
      [] 2).length ≠
      min 2 ([({ title := some "aaa", url := some "", source_type := some "news" } : Item),
              { title := some "zzz", url := some "", source_type := some "news" }].length) := by
  refine ⟨by decide, by decide⟩

/-! ### C5: quota best effort -/

/-- Slots decrease by at most the number of offers. -/
theorem foldl_addSel_rem_lower :
    ∀ (xs : List TItem) (s : SelState),
    s.rem - xs.length ≤ (xs.foldl addSel s).rem := by
  intro xs
  induction xs with
  | nil => exact fun s => by simp
  | cons x xs ih =>
    intro s
    rw [List.foldl_cons, List.length_cons]
    rcases addSel_cases s x with ⟨_, hs⟩ | ⟨_, hs⟩
    · rw [hs]
      have := ih s
      omega
    · rw [hs]
      have := ih (⟨s.sel ++ [x], s.rem - 1⟩ : SelState)
      have h2 : ((⟨s.sel ++ [x], s.rem - 1⟩ : SelState)).rem = s.rem - 1 := rfl
      omega

/-- One bucket consumes at most its target. -/
theorem bucketStep_rem_lower (dist : List (String × Nat × Nat))
    (tagged : List TItem) (st : String) (s : SelState) :
    s.rem - targetOf dist st ≤ (bucketStep dist tagged s st).rem := by
  rw [bucketStep]
  have h1 := foldl_addSel_rem_lower
    ((bySourceT tagged st).take
      (min (targetOf dist st) (min s.rem (bySourceT tagged st).length))) s
  have h2 : ((bySourceT tagged st).take
      (min (targetOf dist st) (min s.rem (bySourceT tagged st).length))).length
      ≤ targetOf dist st := by
    rw [List.length_take]
    omega
  omega

/-- Buckets of different source types are disjoint. -/
theorem bySourceT_disjoint (tagged : List TItem) (st st' : String)
    (hne : st ≠ st') : ∀ y ∈ bySourceT tagged st, y ∉ bySourceT tagged st' := by
  intro y hy hy'
  have h1 := (List.mem_filter.mp hy).2
  have h2 := (List.mem_filter.mp hy').2
  rw [beq_iff_eq] at h1 h2
  exact hne (h1.symm.trans h2)

/-- When the bucket is non-empty, its target is at least one, a slot
remains, the selection so far is made of pool items with distinct pool
ids none of which lies in this bucket, then the bucket's top item is
selected by the bucket pass. -/
theorem bucketStep_hit (dist : List (String × Nat × Nat))
    (tagged : List TItem) (st : String) (s : SelState)
    (hnd : (tagged.map itemId).Nodup)
    (hsubs : ∀ y ∈ s.sel, y ∈ tagged)
    (hkind : ∀ y ∈ s.sel, y ∉ bySourceT tagged st)
    (hrem : 1 ≤ s.rem)
    (hlen : 1 ≤ (bySourceT tagged st).length)
    (htarget : 1 ≤ targetOf dist st) :
    ∃ y ∈ (bucketStep dist tagged s st).sel, y ∈ bySourceT tagged st := by
  obtain ⟨hd, rest, hbucket⟩ : ∃ hd rest, bySourceT tagged st = hd :: rest := by
    cases hb : bySourceT tagged st with
    | nil => rw [hb] at hlen; simp at hlen
    | cons a l => exact ⟨a, l, rfl⟩
  have hhd : hd ∈ bySourceT tagged st := by
    rw [hbucket]; exact List.mem_cons_self _ _
  have hactual : 1 ≤ min (targetOf dist st)
      (min s.rem (bySourceT tagged st).length) := by
    omega
  obtain ⟨m, hm⟩ : ∃ m, min (targetOf dist st)
      (min s.rem (bySourceT tagged st).length) = m + 1 :=
    ⟨min (targetOf dist st) (min s.rem (bySourceT tagged st).length) - 1,
      by omega⟩
  rw [bucketStep, hm, hbucket, List.take_succ_cons, List.foldl_cons]
  have hadd : addSel s hd = ⟨s.sel ++ [hd], s.rem - 1⟩ := by
    rcases addSel_cases s hd with ⟨⟨y, hy, hyid⟩, _⟩ | ⟨_, hs⟩
    · exfalso
      have : y = hd := List.inj_on_of_nodup_map hnd (hsubs y hy)
        (bySourceT_subset tagged st hd hhd) hyid
      exact hkind y hy (this ▸ hhd)
    · exact hs
  rw [hadd]
  obtain ⟨d, hdq, _⟩ := foldl_addSel_decomp (rest.take m)
    (⟨s.sel ++ [hd], s.rem - 1⟩ : SelState)
  refine ⟨hd, ?_, by simp⟩
  rw [hdq]
  exact List.mem_append_left _ (List.mem_append_right _ (by simp))

end GamingNews

namespace GamingNews

/-- With the modelled distribution (per-kind target 1), pool ids pairwise
distinct and every bucket non-empty, the quota pass selects at least one
item of each source kind. -/
theorem firstPass_hit_all (tagged : List TItem)
    (hnd : (tagged.map itemId).Nodup)
    (hn : 1 ≤ (bySourceT tagged "news").length)
    (hr : 1 ≤ (bySourceT tagged "reddit").length)
    (hy : 1 ≤ (bySourceT tagged "youtube").length) :
    ∀ st ∈ (["news", "reddit", "youtube"] : List String),
    ∃ y ∈ (firstPass SOURCE_DISTRIBUTION tagged ITEMS_PER_GAME).sel,
      y ∈ bySourceT tagged st := by
  have h0 : (⟨[], ITEMS_PER_GAME⟩ : SelState).sel.length +
      (⟨[], ITEMS_PER_GAME⟩ : SelState).rem = ITEMS_PER_GAME := by simp
  obtain ⟨b1, _, ⟨d1, hd1, hm1⟩, _⟩ :=
    bucketStep_facts SOURCE_DISTRIBUTION tagged ITEMS_PER_GAME "news"
      ⟨[], ITEMS_PER_GAME⟩ h0
  obtain ⟨b2, _, ⟨d2, hd2, hm2⟩, _⟩ :=
    bucketStep_facts SOURCE_DISTRIBUTION tagged ITEMS_PER_GAME "reddit"
      (bucketStep SOURCE_DISTRIBUTION tagged ⟨[], ITEMS_PER_GAME⟩ "news") b1
  obtain ⟨_, _, ⟨d3, hd3, _⟩, _⟩ :=
    bucketStep_facts SOURCE_DISTRIBUTION tagged ITEMS_PER_GAME "youtube"
      (bucketStep SOURCE_DISTRIBUTION tagged
        (bucketStep SOURCE_DISTRIBUTION tagged ⟨[], ITEMS_PER_GAME⟩ "news")
        "reddit") b2
  have hlow1 := bucketStep_rem_lower SOURCE_DISTRIBUTION tagged "news"
    ⟨[], ITEMS_PER_GAME⟩
  have hlow2 := bucketStep_rem_lower SOURCE_DISTRIBUTION tagged "reddit"
    (bucketStep SOURCE_DISTRIBUTION tagged ⟨[], ITEMS_PER_GAME⟩ "news")
  have htn : targetOf SOURCE_DISTRIBUTION "news" = 1 := by decide
  have htr : targetOf SOURCE_DISTRIBUTION "reddit" = 1 := by decide
  have hrem0 : (⟨[], ITEMS_PER_GAME⟩ : SelState).rem = 5 := rfl
  have hrem1 : 4 ≤ (bucketStep SOURCE_DISTRIBUTION tagged
      ⟨[], ITEMS_PER_GAME⟩ "news").rem := by
    rw [htn, hrem0] at hlow1
    omega
  have hrem2 : 3 ≤ (bucketStep SOURCE_DISTRIBUTION tagged
      (bucketStep SOURCE_DISTRIBUTION tagged ⟨[], ITEMS_PER_GAME⟩ "news")
      "reddit").rem := by
    rw [htr] at hlow2
    omega
  have hsubs1 : ∀ y ∈ (bucketStep SOURCE_DISTRIBUTION tagged
      ⟨[], ITEMS_PER_GAME⟩ "news").sel, y ∈ tagged := by
    intro y hy'
    rw [hd1] at hy'
    rcases List.mem_append.mp hy' with hy' | hy'
    · cases hy'
    · exact bySourceT_subset tagged "news" y (hm1 y hy')
  have hsubs2 : ∀ y ∈ (bucketStep SOURCE_DISTRIBUTION tagged
      (bucketStep SOURCE_DISTRIBUTION tagged ⟨[], ITEMS_PER_GAME⟩ "news")
      "reddit").sel, y ∈ tagged := by
    intro y hy'
    rw [hd2] at hy'
    rcases List.mem_append.mp hy' with hy' | hy'
    · exact hsubs1 y hy'
    · exact bySourceT_subset tagged "reddit" y (hm2 y hy')
  have hkind1 : ∀ y ∈ (bucketStep SOURCE_DISTRIBUTION tagged
      ⟨[], ITEMS_PER_GAME⟩ "news").sel, y ∉ bySourceT tagged "reddit" := by
    intro y hy'
    rw [hd1] at hy'
    rcases List.mem_append.mp hy' with hy' | hy'
    · cases hy'
    · exact bySourceT_disjoint tagged "news" "reddit" (by decide) y (hm1 y hy')
  have hkind2 : ∀ y ∈ (bucketStep SOURCE_DISTRIBUTION tagged
      (bucketStep SOURCE_DISTRIBUTION tagged ⟨[], ITEMS_PER_GAME⟩ "news")
      "reddit").sel, y ∉ bySourceT tagged "youtube" := by
    intro y hy'
    rw [hd2] at hy'
    rcases List.mem_append.mp hy' with hy' | hy'
    · rw [hd1] at hy'
      rcases List.mem_append.mp hy' with hy' | hy'
      · cases hy'
      · exact bySourceT_disjoint tagged "news" "youtube" (by decide) y
          (hm1 y hy')
    · exact bySourceT_disjoint tagged "reddit" "youtube" (by decide) y
        (hm2 y hy')
  obtain ⟨y1, hy1s, hy1b⟩ := bucketStep_hit SOURCE_DISTRIBUTION tagged "news"
    ⟨[], ITEMS_PER_GAME⟩ hnd (by intro y hy'; cases hy')
    (by intro y hy'; cases hy') (by rw [hrem0]; omega) hn (by decide)
  obtain ⟨y2, hy2s, hy2b⟩ := bucketStep_hit SOURCE_DISTRIBUTION tagged
    "reddit" (bucketStep SOURCE_DISTRIBUTION tagged ⟨[], ITEMS_PER_GAME⟩
      "news") hnd hsubs1 hkind1 (by omega) hr (by decide)
  obtain ⟨y3, hy3s, hy3b⟩ := bucketStep_hit SOURCE_DISTRIBUTION tagged
    "youtube" (bucketStep SOURCE_DISTRIBUTION tagged
      (bucketStep SOURCE_DISTRIBUTION tagged ⟨[], ITEMS_PER_GAME⟩ "news")
      "reddit") hnd hsubs2 hkind2 (by omega) hy (by decide)
  have hfp : firstPass SOURCE_DISTRIBUTION tagged ITEMS_PER_GAME =
      bucketStep SOURCE_DISTRIBUTION tagged
        (bucketStep SOURCE_DISTRIBUTION tagged
          (bucketStep SOURCE_DISTRIBUTION tagged ⟨[], ITEMS_PER_GAME⟩ "news")
          "reddit") "youtube" := by
    rw [firstPass]
    simp only [List.foldl_cons, List.foldl_nil]
  intro st hst
  rw [hfp]
  have hy1fin : y1 ∈ (bucketStep SOURCE_DISTRIBUTION tagged
      (bucketStep SOURCE_DISTRIBUTION tagged
        (bucketStep SOURCE_DISTRIBUTION tagged ⟨[], ITEMS_PER_GAME⟩ "news")
        "reddit") "youtube").sel := by
    rw [hd3]
    refine List.mem_append_left _ ?_
    rw [hd2]
    exact List.mem_append_left _ hy1s
  have hy2fin : y2 ∈ (bucketStep SOURCE_DISTRIBUTION tagged
      (bucketStep SOURCE_DISTRIBUTION tagged
        (bucketStep SOURCE_DISTRIBUTION tagged ⟨[], ITEMS_PER_GAME⟩ "news")
        "reddit") "youtube").sel := by
    rw [hd3]
    exact List.mem_append_left _ hy2s
  rcases List.mem_cons.mp hst with h | hst
  · exact ⟨y1, hy1fin, h ▸ hy1b⟩
  rcases List.mem_cons.mp hst with h | hst
  · exact ⟨y2, hy2fin, h ▸ hy2b⟩
  rcases List.mem_cons.mp hst with h | hst
  · exact ⟨y3, hy3s, h ▸ hy3b⟩
  · cases hst

end GamingNews

namespace GamingNews

/-- C5 (amended): with the spec-modelled distribution (target range
`(1, 2)`, midpoint quota 1, minimum 1 per kind) and the default count
`ITEMS_PER_GAME = 5`, if the ranked pool's item identities are pairwise
distinct and every source kind has at least its quota of items available,
then the final selection contains at least the configured minimum (1)
from each kind.  The distinct-identity hypothesis is forced by the
counterexample: an identity shared across kinds silently eats a kind's
whole quota. -/
theorem C5_quota_best_effort (now : ℚ) (items : List Item)
    (os : List String)
    (hnd : ((tagOf (rank_content now items os)).map itemId).Nodup)
    (hn : 1 ≤ (bySourceT (tagOf (rank_content now items os)) "news").length)
    (hr : 1 ≤ (bySourceT (tagOf (rank_content now items os)) "reddit").length)
    (hy : 1 ≤ (bySourceT (tagOf (rank_content now items os)) "youtube").length) :
    ∀ st ∈ (["news", "reddit", "youtube"] : List String),
    1 ≤ ((select_top_items SOURCE_DISTRIBUTION now items os
      ITEMS_PER_GAME).filter
        (fun it => it.source_type.getD "" == st)).length := by
  intro st hst
  obtain ⟨y, hysel, hybuck⟩ :=
    firstPass_hit_all (tagOf (rank_content now items os)) hnd hn hr hy st hst
  obtain ⟨d, hdq, _⟩ := fillTagged_decomp (tagOf (rank_content now items os))
    (firstPass SOURCE_DISTRIBUTION (tagOf (rank_content now items os))
      ITEMS_PER_GAME)
  have hyfin : y ∈ (fillTagged (tagOf (rank_content now items os))
      (firstPass SOURCE_DISTRIBUTION (tagOf (rank_content now items os))
        ITEMS_PER_GAME)).sel := by
    rw [hdq]
    exact List.mem_append_left _ hysel
  have hRne : rank_content now items os ≠ [] := by
    intro hR
    rw [hR] at hn
    simp [tagOf, bySourceT] at hn
  rw [select_top_items_eq, if_neg hRne]
  obtain ⟨hbal1, _, _⟩ := firstPass_facts SOURCE_DISTRIBUTION
    (tagOf (rank_content now items os)) ITEMS_PER_GAME
  have hbal := fillTagged_balance ITEMS_PER_GAME
    (tagOf (rank_content now items os)) _ hbal1
  have hlen : (List.insertionSort descR
      ((fillTagged (tagOf (rank_content now items os))
        (firstPass SOURCE_DISTRIBUTION (tagOf (rank_content now items os))
          ITEMS_PER_GAME)).sel.map (fun x => x.2))).length
      ≤ ITEMS_PER_GAME := by
    rw [List.length_insertionSort, List.length_map]
    omega
  rw [List.take_of_length_le hlen]
  have hmem : y.2 ∈ List.insertionSort descR
      ((fillTagged (tagOf (rank_content now items os))
        (firstPass SOURCE_DISTRIBUTION (tagOf (rank_content now items os))
          ITEMS_PER_GAME)).sel.map (fun x => x.2)) := by
    rw [List.mem_insertionSort]
    exact List.mem_map.mpr ⟨y, hyfin, rfl⟩
  have hkind : (y.2.source_type.getD "" == st) = true :=
    (List.mem_filter.mp hybuck).2
  have hfmem : y.2 ∈ (List.insertionSort descR
      ((fillTagged (tagOf (rank_content now items os))
        (firstPass SOURCE_DISTRIBUTION (tagOf (rank_content now items os))
          ITEMS_PER_GAME)).sel.map (fun x => x.2))).filter
        (fun it => it.source_type.getD "" == st) :=
    List.mem_filter.mpr ⟨hmem, hkind⟩
  have hne := List.ne_nil_of_mem hfmem
  have hpos := List.length_pos.mpr hne
  omega

unseal Rat.mul Rat.inv Rat.add Rat.sub Rat.ofScientific in
/-- C5 counterexample to the original claim: every kind has (at least) its
quota of one item available, but the single reddit item shares its url
with the news item; the news bucket is processed first and claims the
identity, so the reddit item is skipped in both passes and the selection
contains no reddit item at all. -/
theorem C5_quota_cex :
    (bySourceT (tagOf (rank_content 0
      [{ title := some "n", url := some "u", source_type := some "news" },
       { title := some "r", url := some "u", source_type := some "reddit" },
       { title := some "y", url := some "w", source_type := some "youtube" }]
      [])) "news").length = 1 ∧
    (bySourceT (tagOf (rank_content 0
      [{ title := some "n", url := some "u", source_type := some "news" },
       { title := some "r", url := some "u", source_type := some "reddit" },
       { title := some "y", url := some "w", source_type := some "youtube" }]
      [])) "reddit").length = 1 ∧
    (bySourceT (tagOf (rank_content 0
      [{ title := some "n", url := some "u", source_type := some "news" },
       { title := some "r", url := some "u", source_type := some "reddit" },
       { title := some "y", url := some "w", source_type := some "youtube" }]
      [])) "youtube").length = 1 ∧
    ((select_top_items SOURCE_DISTRIBUTION 0
      [{ title := some "n", url := some "u", source_type := some "news" },
       { title := some "r", url := some "u", source_type := some "reddit" },
       { title := some "y", url := some "w", source_type := some "youtube" }]
      [] ITEMS_PER_GAME).filter
        (fun it => it.source_type.getD "" == "reddit")).length = 0 := by
  refine ⟨by decide, by decide, by decide, by decide⟩

unseal Rat.mul Rat.inv Rat.add Rat.sub Rat.ofScientific in
/-- C5 witness: a pool with one item of each kind and three distinct
URLs; each kind reaches its configured minimum in the selection. -/
theorem C5_quota_best_effort_witness :
    ((tagOf (rank_content 0
      [{ title := some "n", url := some "u", source_type := some "news" },
       { title := some "r", url := some "v", source_type := some "reddit" },
       { title := some "y", url := some "w", source_type := some "youtube" }]
      [])).map itemId).Nodup ∧
    (∀ st ∈ (["news", "reddit", "youtube"] : List String),
      1 ≤ ((select_top_items SOURCE_DISTRIBUTION 0
        [{ title := some "n", url := some "u", source_type := some "news" },
         { title := some "r", url := some "v", source_type := some "reddit" },
         { title := some "y", url := some "w", source_type := some "youtube" }]
        [] ITEMS_PER_GAME).filter
          (fun it => it.source_type.getD "" == st)).length) :=
  ⟨by decide,
    C5_quota_best_effort 0
      [{ title := some "n", url := some "u", source_type := some "news" },
       { title := some "r", url := some "v", source_type := some "reddit" },
       { title := some "y", url := some "w", source_type := some "youtube" }]
      [] (by decide) (by decide) (by decide) (by decide)⟩

end GamingNews
